import Mathlib

/-!
Verification of the tampering-detection core of `DocumentAnalyzer.js`.

The JavaScript source is embedded shallowly: JS numbers become exact
rationals (`ℚ`), JS arrays become `List`, the heterogeneous issue records
become one `Issue` structure with optional fields, and `Map`/`Set`
grouping (whose keys and elements are kept in first-insertion order)
is modelled by `distinctInOrder`.  The only irrational quantity in the
source, the Euclidean spacing `Math.sqrt(dx^2 + dy^2)`, is carried as its
exact square (`ℚ`) and recovered as `Real.sqrt` in the theorems.
-/

/-- Severity levels appearing in issues produced by the analyzer. -/
inductive Severity where
  | high
  | medium
  | low
deriving DecidableEq, Repr

/-- The three issue types of the analyzer. -/
inductive IssueType where
  | fontFamily
  | fontSize
  | spacing
deriving DecidableEq, Repr

/-- Context labels produced by `determineContext` (header / subheader / body). -/
inductive Context where
  | header
  | subheader
  | body
deriving DecidableEq, Repr, Fintype

/-- A run position, `{x, y}` in the upstream parser's coordinate space. -/
structure Position where
  x : ℚ
  y : ℚ
deriving DecidableEq, Repr

/-- One extracted text run (`fontMetrics` entry built by `extractFontMetrics`). -/
structure Metric where
  text : String
  fontSize : ℚ
  fontFamily : String
  position : Position
  width : ℚ
  height : ℚ
deriving DecidableEq, Repr

/-- One inconsistency record.  The JS issues are dynamic records whose extra
fields depend on the issue type; the type-specific fields are optional here.
The spacing issue's `details.spacing` float is carried as its exact square
`spacingSqDetail` (see `calculateSpacingSq`). -/
structure Issue where
  type : IssueType
  severity : Severity
  description : String
  context : Option Context := none
  detectedFonts : List String := []
  position : Option Position := none
  meanDetail : Option ℚ := none
  varianceDetail : Option ℚ := none
  spacingSqDetail : Option ℚ := none
deriving DecidableEq, Repr

/-- One entry of the `detectedFonts` inventory (`{name, occurrences}`). -/
structure FontCount where
  name : String
  occurrences : ℕ
deriving DecidableEq, Repr

/-- The wrapped font-family result `{issues, detectedFonts}` that `analyzePDF`
substitutes for the raw issue list before scoring. -/
structure FontFamilyResult where
  issues : List Issue
  detectedFonts : List FontCount
deriving DecidableEq, Repr

/-- The `inconsistencies` object handed to `generateReport` /
`calculateSeverityScore`: a wrapped font-family result and two raw lists. -/
structure Inconsistencies where
  fontFamily : FontFamilyResult
  fontSize : List Issue
  spacing : List Issue
deriving DecidableEq, Repr

/-- A JS value that is either a raw issue array or the wrapped `{issues, ...}`
object; `calculateSeverityScore` and the `totalIssues` reduce both test
`Array.isArray(issues)` and fall back to `issues.issues`. -/
inductive IssuesVal where
  | arr (l : List Issue)
  | wrapped (g : FontFamilyResult)
deriving DecidableEq, Repr

/-- The issue list extracted from either shape
(`Array.isArray(issues) ? issues : (issues.issues || [])`). -/
def issuesListOf : IssuesVal → List Issue
  | .arr l => l
  | .wrapped g => g.issues

/-- `Object.entries(inconsistencies)` in insertion order. -/
def entriesOf (inc : Inconsistencies) : List (IssueType × IssuesVal) :=
  [(.fontFamily, .wrapped inc.fontFamily),
   (.fontSize, .arr inc.fontSize),
   (.spacing, .arr inc.spacing)]

/-- The per-type weights table of `calculateSeverityScore`. -/
def weightOf : IssueType → ℚ
  | .fontFamily => 0.4
  | .fontSize => 0.3
  | .spacing => 0.3

/-- The severity multiplier ternary chain:
`severity === 'high' ? 1 : severity === 'medium' ? 0.6 : 0.3`. -/
def severityMultiplier (s : Severity) : ℚ :=
  if s = .high then 1 else if s = .medium then 0.6 else 0.3

/-- `calculateSeverityScore`: reduce over `Object.entries(inconsistencies)`,
adding `issueScore * typeWeight` for each type, where `issueScore` is the
reduce of severity multipliers over that type's issue list. -/
def calculateSeverityScore (inc : Inconsistencies) : ℚ :=
  (entriesOf inc).foldl
    (fun score e =>
      score +
        ((issuesListOf e.2).foldl (fun sum i => sum + severityMultiplier i.severity) 0)
          * weightOf e.1)
    0

/-- The `totalIssues` reduce of `generateReport` over `Object.values`. -/
def totalIssuesOf (inc : Inconsistencies) : ℕ :=
  (entriesOf inc).foldl (fun s e => s + (issuesListOf e.2).length) 0

/-- `calculateConfidenceScore(totalIssues, severityScore)`. -/
def calculateConfidenceScore (totalIssues : ℕ) (severityScore : ℚ) : ℚ :=
  let baseConfidence := min 1 (max 0 (1 - severityScore / 10))
  let issuesPenalty := min 0.5 ((totalIssues : ℚ) * 0.1)
  max 0 (baseConfidence - issuesPenalty)

/-- The `summary` block of the report. -/
structure Summary where
  totalIssues : ℕ
  fontFamilyIssues : ℕ
  fontSizeIssues : ℕ
  spacingIssues : ℕ
deriving DecidableEq, Repr

/-- The report built by `generateReport` (the `timestamp` string, a clock
side effect, is not modelled; no claim mentions it). -/
structure Report where
  suspicious : Bool
  severityScore : ℚ
  confidence : ℚ
  summary : Summary
  details : Inconsistencies
deriving DecidableEq, Repr

/-- `generateReport(inconsistencies)`. -/
def generateReport (inc : Inconsistencies) : Report :=
  let totalIssues := totalIssuesOf inc
  let severityScore := calculateSeverityScore inc
  { suspicious := decide (totalIssues > 0)
    severityScore := severityScore
    confidence := calculateConfidenceScore totalIssues severityScore
    summary :=
      { totalIssues := totalIssues
        fontFamilyIssues := inc.fontFamily.issues.length
        fontSizeIssues := inc.fontSize.length
        spacingIssues := inc.spacing.length }
    details := inc }

/-- Folding `+ f x` from an accumulator is the accumulator plus the mapped sum. -/
lemma foldl_add_map {α : Type} (f : α → ℚ) :
    ∀ (l : List α) (a : ℚ), l.foldl (fun s x => s + f x) a = a + (l.map f).sum := by
  intro l
  induction l with
  | nil => intro a; simp
  | cons x xs ih =>
    intro a
    simp only [List.foldl_cons, List.map_cons, List.sum_cons, ih]
    ring

/-- C1: the severity score equals the weighted sum, over the three issue
types, of each issue's severity multiplier, with weights 0.4 / 0.3 / 0.3
and multipliers high 1.0, medium 0.6, low 0.3. -/
theorem severityScore_weighted_sum (inc : Inconsistencies) :
    calculateSeverityScore inc =
        0.4 * ((inc.fontFamily.issues.map (fun i => severityMultiplier i.severity)).sum)
      + 0.3 * ((inc.fontSize.map (fun i => severityMultiplier i.severity)).sum)
      + 0.3 * ((inc.spacing.map (fun i => severityMultiplier i.severity)).sum)
    ∧ severityMultiplier .high = 1
    ∧ severityMultiplier .medium = 0.6
    ∧ severityMultiplier .low = 0.3 := by
  refine ⟨?_, rfl, rfl, rfl⟩
  simp only [calculateSeverityScore, entriesOf, issuesListOf, weightOf, List.foldl_cons,
    List.foldl_nil, foldl_add_map]
  ring

/-- C6: the report's `totalIssues` is the sum of the three issue-list lengths
and `suspicious` holds exactly when that sum is positive. -/
theorem report_totalIssues_suspicious (inc : Inconsistencies) :
    (generateReport inc).summary.totalIssues
        = inc.fontFamily.issues.length + inc.fontSize.length + inc.spacing.length
    ∧ ((generateReport inc).suspicious = true ↔
        0 < (generateReport inc).summary.totalIssues) := by
  constructor
  · simp [generateReport, totalIssuesOf, entriesOf, issuesListOf]
  · simp [generateReport]

/-- C5: the confidence score is `max 0 (baseConfidence - issuesPenalty)` with
`baseConfidence = clamp(1 - severityScore/10, 0, 1)` and
`issuesPenalty = min 0.5 (totalIssues * 0.1)`, always lies in `[0, 1]`,
and equals 1 at zero issues and zero severity. -/
theorem confidence_formula_bounds (t : ℕ) (s : ℚ) (_hs : 0 ≤ s) :
    calculateConfidenceScore t s
        = max 0 (min 1 (max 0 (1 - s / 10)) - min 0.5 ((t : ℚ) * 0.1))
    ∧ 0 ≤ calculateConfidenceScore t s
    ∧ calculateConfidenceScore t s ≤ 1
    ∧ calculateConfidenceScore 0 0 = 1 := by
  refine ⟨rfl, le_max_left _ _, ?_, by norm_num [calculateConfidenceScore]⟩
  have hp : (0 : ℚ) ≤ min 0.5 ((t : ℚ) * 0.1) := by
    refine le_min (by norm_num) ?_
    positivity
  have hb : min 1 (max 0 (1 - s / 10)) ≤ 1 := min_le_left _ _
  simp only [calculateConfidenceScore]
  refine max_le (by norm_num) ?_
  calc min 1 (max 0 (1 - s / 10)) - min 0.5 ((t : ℚ) * 0.1)
      ≤ min 1 (max 0 (1 - s / 10)) := by linarith
    _ ≤ 1 := hb

/-- Witness for C5 at a concrete nonnegative severity score. -/
theorem confidence_formula_bounds_witness :
    0 ≤ calculateConfidenceScore 3 2 ∧ calculateConfidenceScore 3 2 ≤ 1 :=
  ⟨(confidence_formula_bounds 3 2 (by norm_num)).2.1,
   (confidence_formula_bounds 3 2 (by norm_num)).2.2.1⟩

/-- `determineContext(metric)`: classify a run from its font size alone. -/
def determineContext (m : Metric) : Context :=
  if m.fontSize > 20 then .header
  else if m.fontSize > 14 then .subheader
  else .body

/-- Adding one element to a JS `Set`/`Map` key list: appended at the end
when new, ignored when already present. -/
def insertNew {α : Type} [DecidableEq α] (l : List α) (a : α) : List α :=
  if a ∈ l then l else l ++ [a]

/-- The distinct elements of a list in first-occurrence order: the element
order of a JS `Set` (or key order of a JS `Map`) filled by one pass. -/
def distinctInOrder {α : Type} [DecidableEq α] (l : List α) : List α :=
  l.foldl insertNew []

/-- Membership in `insertNew`. -/
lemma mem_insertNew {α : Type} [DecidableEq α] (l : List α) (b a : α) :
    a ∈ insertNew l b ↔ a ∈ l ∨ a = b := by
  unfold insertNew
  split
  · rename_i hb
    constructor
    · exact Or.inl
    · rintro (h | rfl)
      · exact h
      · exact hb
  · simp

/-- `insertNew` preserves `Nodup`. -/
lemma nodup_insertNew {α : Type} [DecidableEq α] (l : List α) (b : α)
    (h : l.Nodup) : (insertNew l b).Nodup := by
  unfold insertNew
  split
  · exact h
  · rename_i hb
    simp [List.nodup_append, h, hb]

/-- Membership through the `insertNew` fold. -/
lemma mem_foldl_insertNew {α : Type} [DecidableEq α] :
    ∀ (l acc : List α) (a : α), a ∈ l.foldl insertNew acc ↔ a ∈ acc ∨ a ∈ l := by
  intro l
  induction l with
  | nil => intro acc a; simp
  | cons x xs ih =>
    intro acc a
    rw [List.foldl_cons, ih, mem_insertNew]
    simp [or_assoc, List.mem_cons, eq_comm]

/-- The `insertNew` fold preserves `Nodup`. -/
lemma nodup_foldl_insertNew {α : Type} [DecidableEq α] :
    ∀ (l acc : List α), acc.Nodup → (l.foldl insertNew acc).Nodup := by
  intro l
  induction l with
  | nil => intro acc h; simpa using h
  | cons x xs ih =>
    intro acc h
    exact ih _ (nodup_insertNew _ _ h)

/-- Membership in `distinctInOrder`. -/
lemma mem_distinctInOrder {α : Type} [DecidableEq α] (l : List α) (a : α) :
    a ∈ distinctInOrder l ↔ a ∈ l := by
  unfold distinctInOrder
  rw [mem_foldl_insertNew]
  simp

/-- `distinctInOrder` has no duplicates. -/
lemma nodup_distinctInOrder {α : Type} [DecidableEq α] (l : List α) :
    (distinctInOrder l).Nodup :=
  nodup_foldl_insertNew l [] List.nodup_nil

/-- The context keys of the grouping `Map`s, in first-insertion order. -/
def contextsOf (ms : List Metric) : List Context :=
  distinctInOrder (ms.map determineContext)

/-- The distinct font families observed in context `c`, in first-occurrence
order: the contents of the `Set` that `analyzeFontFamilyConsistency` builds
for that context. -/
def contextFonts (ms : List Metric) (c : Context) : List String :=
  distinctInOrder ((ms.filter (fun m => decide (determineContext m = c))).map
    (fun m => m.fontFamily))

/-- The issue pushed by `analyzeFontFamilyConsistency` for one context. -/
def familyIssueFor (c : Context) (fonts : List String) : Issue :=
  { type := .fontFamily
    severity := .high
    description := "Multiple font families (" ++ toString fonts.length
      ++ ") detected in same context"
    context := some c
    detectedFonts := fonts }

/-- `analyzeFontFamilyConsistency(metrics)`: group font families by context,
then emit one high-severity issue per context holding more than 2 distinct
families. -/
def analyzeFontFamilyConsistency (ms : List Metric) : List Issue :=
  (contextsOf ms).filterMap (fun c =>
    if 2 < (contextFonts ms c).length then some (familyIssueFor c (contextFonts ms c))
    else none)

/-- The font sizes observed in context `c`, in input order: the array that
`analyzeFontSizeConsistency` accumulates for that context. -/
def contextSizes (ms : List Metric) (c : Context) : List ℚ :=
  (ms.filter (fun m => decide (determineContext m = c))).map (fun m => m.fontSize)

/-- `sizes.reduce((a, b) => a + b) / sizes.length` (the groups are nonempty
by construction, so the init-less reduce is the plain sum). -/
def meanOf (l : List ℚ) : ℚ := l.sum / l.length

/-- `sizes.reduce((a, b) => a + Math.pow(b - mean, 2), 0) / sizes.length`. -/
def varianceOf (l : List ℚ) : ℚ :=
  ((l.map (fun b => (b - meanOf l) ^ 2)).sum) / l.length

/-- The issue pushed by `analyzeFontSizeConsistency` for one context. -/
def sizeIssueFor (c : Context) (mean variance : ℚ) : Issue :=
  { type := .fontSize
    severity := .medium
    description := "Suspicious font size variations detected"
    context := some c
    meanDetail := some mean
    varianceDetail := some variance }

/-- `analyzeFontSizeConsistency(metrics)`: group font sizes by context, then
emit one medium-severity issue per context whose population variance
exceeds 2. -/
def analyzeFontSizeConsistency (ms : List Metric) : List Issue :=
  (contextsOf ms).filterMap (fun c =>
    if 2 < varianceOf (contextSizes ms c) then
      some (sizeIssueFor c (meanOf (contextSizes ms c)) (varianceOf (contextSizes ms c)))
    else none)

/-- Counting, by context, the issues of a one-issue-per-context `filterMap`
over a duplicate-free key list. -/
lemma countP_filterMap_perContext (g : Context → Option Issue)
    (hg : ∀ d i, g d = some i → i.context = some d) :
    ∀ (L : List Context), L.Nodup → ∀ (c : Context),
      ((L.filterMap g).countP (fun i => decide (i.context = some c)))
        = if c ∈ L then (if (g c).isSome then 1 else 0) else 0 := by
  intro L
  induction L with
  | nil => intro _ c; simp
  | cons d L' ih =>
    intro hL c
    have hd : d ∉ L' := (List.nodup_cons.mp hL).1
    have hL' : L'.Nodup := (List.nodup_cons.mp hL).2
    rw [List.filterMap_cons]
    cases hgd : g d with
    | none =>
      rw [ih hL' c]
      by_cases hcd : c = d
      · subst hcd
        simp [hd, hgd]
      · simp [List.mem_cons, hcd]
    | some i =>
      rw [List.countP_cons, ih hL' c]
      have hic : i.context = some d := hg d i hgd
      by_cases hcd : c = d
      · subst hcd
        simp [hd, hgd, hic]
      · have hfalse : (decide (i.context = some c)) = false := by
          simp [hic]
          exact fun h => hcd h.symm
        simp [List.mem_cons, hcd, hfalse]

/-- An issue of such a `filterMap` whose context is `c` is the issue `g`
produces at `c`. -/
lemma filterMap_context_eq (g : Context → Option Issue)
    (hg : ∀ d i, g d = some i → i.context = some d)
    (L : List Context) (c : Context) (i : Issue)
    (hi : i ∈ L.filterMap g) (hc : i.context = some c) : g c = some i := by
  rcases List.mem_filterMap.mp hi with ⟨d, _, hd⟩
  have h2 := hg d i hd
  rw [hc] at h2
  obtain rfl : c = d := Option.some.inj h2
  exact hd

/-- A context occurs as a grouping key exactly when some run classifies to it. -/
lemma mem_contextsOf (ms : List Metric) (c : Context) :
    c ∈ contextsOf ms ↔ ∃ m ∈ ms, determineContext m = c := by
  unfold contextsOf
  rw [mem_distinctInOrder]
  simp

/-- A context with at least one observed family is a grouping key. -/
lemma contextFonts_present (ms : List Metric) (c : Context)
    (h : contextFonts ms c ≠ []) : c ∈ contextsOf ms := by
  cases hf : contextFonts ms c with
  | nil => exact absurd hf h
  | cons f fs =>
    have hmem : f ∈ contextFonts ms c := by rw [hf]; exact List.mem_cons_self f fs
    rw [contextFonts, mem_distinctInOrder] at hmem
    rcases List.mem_map.mp hmem with ⟨m, hm, _⟩
    have hmc := List.mem_filter.mp hm
    rw [mem_contextsOf]
    exact ⟨m, hmc.1, of_decide_eq_true hmc.2⟩

/-- A run in context `c` contributes its size to that context's group. -/
lemma contextSizes_ne_nil (ms : List Metric) (c : Context)
    (h : ∃ m ∈ ms, determineContext m = c) : contextSizes ms c ≠ [] := by
  rcases h with ⟨m, hm, hmc⟩
  have : m.fontSize ∈ contextSizes ms c := by
    unfold contextSizes
    exact List.mem_map.mpr ⟨m, List.mem_filter.mpr ⟨hm, decide_eq_true hmc⟩, rfl⟩
  exact List.ne_nil_of_mem this

/-- Mean of a constant list. -/
lemma meanOf_const (n : ℕ) (v : ℚ) (hn : n ≠ 0) : meanOf (List.replicate n v) = v := by
  have hq : (n : ℚ) ≠ 0 := Nat.cast_ne_zero.mpr hn
  simp only [meanOf, List.sum_replicate, List.length_replicate, nsmul_eq_mul]
  rw [mul_comm, mul_div_assoc, div_self hq, mul_one]

/-- Population variance of a constant list is zero. -/
lemma varianceOf_const (n : ℕ) (v : ℚ) (hn : n ≠ 0) :
    varianceOf (List.replicate n v) = 0 := by
  simp [varianceOf, meanOf_const n v hn, List.map_replicate, List.sum_replicate]

/-- Population variance of a list whose elements are all equal is zero. -/
lemma varianceOf_allEq (l : List ℚ) (v : ℚ) (h : ∀ x ∈ l, x = v) (hne : l ≠ []) :
    varianceOf l = 0 := by
  have hrep : l = List.replicate l.length v := List.eq_replicate_length.mpr h
  have hn : l.length ≠ 0 := by
    intro h0
    exact hne (List.length_eq_zero.mp h0)
  calc varianceOf l = varianceOf (List.replicate l.length v) := by rw [← hrep]
    _ = 0 := varianceOf_const _ v hn

/-- Population variance of a one-element list is zero. -/
lemma varianceOf_singleton (x : ℚ) : varianceOf [x] = 0 := by
  simp [varianceOf, meanOf]

/-- The three-run scenario with families Arial / Times / Helvetica, all size
12 (one `body` context), from the spec and the unit tests. -/
def famScenario : List Metric :=
  [ { text := "Test", fontSize := 12, fontFamily := "Arial",
      position := { x := 0, y := 0 }, width := 10, height := 10 },
    { text := "Test", fontSize := 12, fontFamily := "Times",
      position := { x := 20, y := 0 }, width := 10, height := 10 },
    { text := "Test", fontSize := 12, fontFamily := "Helvetica",
      position := { x := 40, y := 0 }, width := 10, height := 10 } ]

/-- C2: per context, at most 2 distinct families yield no font-family issue;
3 or more yield exactly one high-severity issue whose `detectedFonts` are
exactly the distinct families observed there; contexts are classified from
the font size alone. -/
theorem familyDetector_perContext (ms : List Metric) (c : Context) :
    ((contextFonts ms c).length ≤ 2 →
      (analyzeFontFamilyConsistency ms).countP (fun i => decide (i.context = some c)) = 0)
    ∧ (3 ≤ (contextFonts ms c).length →
      (analyzeFontFamilyConsistency ms).countP (fun i => decide (i.context = some c)) = 1)
    ∧ (∀ i ∈ analyzeFontFamilyConsistency ms, i.context = some c →
        i.severity = .high ∧ i.detectedFonts = contextFonts ms c)
    ∧ (∀ m₁ m₂ : Metric, m₁.fontSize = m₂.fontSize →
        determineContext m₁ = determineContext m₂) := by
  set g : Context → Option Issue := fun d =>
    if 2 < (contextFonts ms d).length then some (familyIssueFor d (contextFonts ms d))
    else none with hgdef
  have hg : ∀ d i, g d = some i → i.context = some d := by
    intro d i h
    rw [hgdef] at h
    simp only [] at h
    by_cases hlen : 2 < (contextFonts ms d).length
    · rw [if_pos hlen] at h
      injection h with h2
      rw [← h2]
      rfl
    · rw [if_neg hlen] at h
      exact Option.noConfusion h
  have hrw : analyzeFontFamilyConsistency ms = (contextsOf ms).filterMap g := rfl
  have hcount := countP_filterMap_perContext g hg (contextsOf ms)
    (nodup_distinctInOrder _) c
  refine ⟨?_, ?_, ?_, ?_⟩
  · intro hle
    have hnone : g c = none := by
      rw [hgdef]
      exact if_neg (by omega)
    rw [hrw, hcount, hnone]
    simp
  · intro hge
    have hsome : g c = some (familyIssueFor c (contextFonts ms c)) := by
      rw [hgdef]
      exact if_pos (by omega)
    have hmem : c ∈ contextsOf ms := by
      refine contextFonts_present ms c ?_
      intro hnil
      rw [hnil] at hge
      simp at hge
    rw [hrw, hcount, hsome]
    simp [hmem]
  · intro i hi hic
    have heq := filterMap_context_eq g hg (contextsOf ms) c i (hrw ▸ hi) hic
    rw [hgdef] at heq
    simp only [] at heq
    by_cases hlen : 2 < (contextFonts ms c).length
    · rw [if_pos hlen] at heq
      injection heq with h2
      rw [← h2]
      exact ⟨rfl, rfl⟩
    · rw [if_neg hlen] at heq
      exact Option.noConfusion heq
  · intro m₁ m₂ h
    simp [determineContext, h]

/-- Witness for C2: the Arial / Times / Helvetica scenario produces exactly
one font-family issue for the `body` context. -/
theorem familyDetector_perContext_witness :
    (analyzeFontFamilyConsistency famScenario).countP
      (fun i => decide (i.context = some .body)) = 1 :=
  (familyDetector_perContext famScenario .body).2.1 (by decide)

/-- The spec scenario: three `body` runs with sizes 12, 12.5, 13
(population variance 1/6, below the threshold 2). -/
def sizeScenario : List Metric :=
  [ { text := "Test", fontSize := 12, fontFamily := "Arial",
      position := { x := 0, y := 0 }, width := 10, height := 10 },
    { text := "Test", fontSize := 12.5, fontFamily := "Arial",
      position := { x := 20, y := 0 }, width := 10, height := 10 },
    { text := "Test", fontSize := 13, fontFamily := "Arial",
      position := { x := 40, y := 0 }, width := 10, height := 10 } ]

/-- Two `body` runs with sizes 1 and 9 (population variance 16 > 2). -/
def sizeScenarioSpread : List Metric :=
  [ { text := "Test", fontSize := 1, fontFamily := "Arial",
      position := { x := 0, y := 0 }, width := 10, height := 10 },
    { text := "Test", fontSize := 9, fontFamily := "Arial",
      position := { x := 20, y := 0 }, width := 10, height := 10 } ]

/-- C3: per observed context, the size detector emits exactly one
medium-severity issue carrying the population mean and variance exactly when
the variance exceeds 2; constant-size contexts, single-run contexts, and the
12 / 12.5 / 13 scenario emit nothing. -/
theorem sizeDetector_perContext (ms : List Metric) (c : Context) (v : ℚ) :
    ((∃ m ∈ ms, determineContext m = c) →
      (analyzeFontSizeConsistency ms).countP (fun i => decide (i.context = some c))
        = if 2 < varianceOf (contextSizes ms c) then 1 else 0)
    ∧ (∀ i ∈ analyzeFontSizeConsistency ms, i.context = some c →
        i.severity = .medium
        ∧ i.meanDetail = some (meanOf (contextSizes ms c))
        ∧ i.varianceDetail = some (varianceOf (contextSizes ms c)))
    ∧ ((∀ m ∈ ms, determineContext m = c → m.fontSize = v) →
      (analyzeFontSizeConsistency ms).countP (fun i => decide (i.context = some c)) = 0)
    ∧ ((contextSizes ms c).length = 1 →
      (analyzeFontSizeConsistency ms).countP (fun i => decide (i.context = some c)) = 0)
    ∧ analyzeFontSizeConsistency sizeScenario = [] := by
  set g : Context → Option Issue := fun d =>
    if 2 < varianceOf (contextSizes ms d) then
      some (sizeIssueFor d (meanOf (contextSizes ms d)) (varianceOf (contextSizes ms d)))
    else none with hgdef
  have hg : ∀ d i, g d = some i → i.context = some d := by
    intro d i h
    rw [hgdef] at h
    simp only [] at h
    by_cases hv : 2 < varianceOf (contextSizes ms d)
    · rw [if_pos hv] at h
      injection h with h2
      rw [← h2]
      rfl
    · rw [if_neg hv] at h
      exact Option.noConfusion h
  have hrw : analyzeFontSizeConsistency ms = (contextsOf ms).filterMap g := rfl
  have hcount := countP_filterMap_perContext g hg (contextsOf ms)
    (nodup_distinctInOrder _) c
  have hzero : g c = none →
      (analyzeFontSizeConsistency ms).countP (fun i => decide (i.context = some c)) = 0 := by
    intro hnone
    rw [hrw, hcount, hnone]
    simp
  refine ⟨?_, ?_, ?_, ?_, ?_⟩
  · intro hpres
    have hmem : c ∈ contextsOf ms := (mem_contextsOf ms c).mpr hpres
    by_cases hv : 2 < varianceOf (contextSizes ms c)
    · have hsome : g c
          = some (sizeIssueFor c (meanOf (contextSizes ms c)) (varianceOf (contextSizes ms c))) := by
        rw [hgdef]
        exact if_pos hv
      rw [hrw, hcount, hsome, if_pos hv]
      simp [hmem]
    · have hnone : g c = none := by
        rw [hgdef]
        exact if_neg hv
      rw [hrw, hcount, hnone, if_neg hv]
      simp
  · intro i hi hic
    have heq := filterMap_context_eq g hg (contextsOf ms) c i (hrw ▸ hi) hic
    rw [hgdef] at heq
    simp only [] at heq
    by_cases hv : 2 < varianceOf (contextSizes ms c)
    · rw [if_pos hv] at heq
      injection heq with h2
      rw [← h2]
      exact ⟨rfl, rfl, rfl⟩
    · rw [if_neg hv] at heq
      exact Option.noConfusion heq
  · intro hconst
    refine hzero ?_
    rw [hgdef]
    refine if_neg ?_
    by_cases hpres : ∃ m ∈ ms, determineContext m = c
    · have hne := contextSizes_ne_nil ms c hpres
      have hall : ∀ x ∈ contextSizes ms c, x = v := by
        intro x hx
        rcases List.mem_map.mp hx with ⟨m, hm, hxm⟩
        have hmf := List.mem_filter.mp hm
        rw [← hxm]
        exact hconst m hmf.1 (of_decide_eq_true hmf.2)
      rw [varianceOf_allEq _ v hall hne]
      norm_num
    · have hnil : contextSizes ms c = [] := by
        unfold contextSizes
        rw [List.map_eq_nil_iff, List.filter_eq_nil_iff]
        intro m hm
        intro hdec
        exact hpres ⟨m, hm, of_decide_eq_true hdec⟩
      rw [hnil]
      simp [varianceOf, meanOf]
  · intro hone
    rcases List.length_eq_one.mp hone with ⟨x, hx⟩
    refine hzero ?_
    rw [hgdef]
    refine if_neg ?_
    rw [hx, varianceOf_singleton]
    norm_num
  · have h1 : contextsOf sizeScenario = [Context.body] := by
      norm_num [contextsOf, sizeScenario, determineContext, distinctInOrder, insertNew]
    have h2 : contextSizes sizeScenario Context.body = [12, 12.5, 13] := by
      norm_num [contextSizes, sizeScenario, determineContext]
    have h3 : ¬ 2 < varianceOf (contextSizes sizeScenario Context.body) := by
      rw [h2]
      norm_num [varianceOf, meanOf]
    unfold analyzeFontSizeConsistency
    rw [h1, List.filterMap_cons_none, List.filterMap_nil]
    exact if_neg h3

/-- Witness for C3: the 1 / 9 spread (variance 16) yields exactly one size
issue for the `body` context. -/
theorem sizeDetector_perContext_witness :
    (analyzeFontSizeConsistency sizeScenarioSpread).countP
      (fun i => decide (i.context = some .body)) = 1 := by
  have hpres : ∃ m ∈ sizeScenarioSpread, determineContext m = .body := by
    refine ⟨{ text := "Test", fontSize := 1, fontFamily := "Arial",
              position := { x := 0, y := 0 }, width := 10, height := 10 }, ?_, ?_⟩
    · simp [sizeScenarioSpread]
    · norm_num [determineContext]
  have h := (sizeDetector_perContext sizeScenarioSpread .body 0).1 hpres
  have h2 : contextSizes sizeScenarioSpread Context.body = [1, 9] := by
    norm_num [contextSizes, sizeScenarioSpread, determineContext]
  have h3 : 2 < varianceOf (contextSizes sizeScenarioSpread Context.body) := by
    rw [h2]
    norm_num [varianceOf, meanOf]
  rw [h, if_pos h3]

/-- C9: each grouping detector emits at most one issue per context, and there
are only three context labels, so each emits at most three issues. -/
theorem detectors_at_most_three (ms : List Metric) :
    (analyzeFontFamilyConsistency ms).length ≤ 3
    ∧ (analyzeFontSizeConsistency ms).length ≤ 3 := by
  have hcard : Fintype.card Context = 3 := rfl
  have hlen : (contextsOf ms).length ≤ 3 := by
    have h := (nodup_distinctInOrder (ms.map determineContext)).length_le_card
    rw [hcard] at h
    exact h
  exact ⟨le_trans (List.length_filterMap_le _ _) hlen,
    le_trans (List.length_filterMap_le _ _) hlen⟩

/-- The square of `calculateSpacing(prev, current)`.  The source computes
`Math.sqrt(Math.pow(current.position.x - (prev.position.x + prev.width), 2)
+ Math.pow(current.position.y - prev.position.y, 2))`; the square is kept
exact in `ℚ` and the spacing itself is `Real.sqrt` of it in the theorems. -/
def calculateSpacingSq (prev cur : Metric) : ℚ :=
  (cur.position.x - (prev.position.x + prev.width)) ^ 2
    + (cur.position.y - prev.position.y) ^ 2

/-- `isSpacingAbnormal(spacing)` is `spacing < 0.1 || spacing > 20`; since
spacing is a square root of a nonnegative quantity and both thresholds are
nonnegative, this is equivalently decided on the squared spacing. -/
def isSpacingAbnormal (spacingSq : ℚ) : Bool :=
  decide (spacingSq < 0.1 ^ 2) || decide (20 ^ 2 < spacingSq)

/-- The issue pushed by `analyzeSpacingConsistency` for one abnormal pair. -/
def spacingIssue (prev cur : Metric) : Issue :=
  { type := .spacing
    severity := .medium
    description := "Abnormal character spacing detected"
    position := some cur.position
    spacingSqDetail := some (calculateSpacingSq prev cur) }

/-- The forEach body of `analyzeSpacingConsistency` once `previousMetric` is
set: compare each run to its predecessor and move the cursor forward. -/
def spacingScan : Metric → List Metric → List Issue
  | _, [] => []
  | prev, cur :: rest =>
    (if isSpacingAbnormal (calculateSpacingSq prev cur) then [spacingIssue prev cur]
     else []) ++ spacingScan cur rest

/-- `analyzeSpacingConsistency(metrics)`: single scan in input order; the
first run has no predecessor and is skipped. -/
def analyzeSpacingConsistency : List Metric → List Issue
  | [] => []
  | m :: rest => spacingScan m rest

/-- The scan is the flat map of the abnormality check over consecutive pairs. -/
lemma spacingScan_eq_zip :
    ∀ (rest : List Metric) (prev : Metric),
      spacingScan prev rest
        = ((prev :: rest).zip rest).flatMap (fun pc =>
            if isSpacingAbnormal (calculateSpacingSq pc.1 pc.2) then [spacingIssue pc.1 pc.2]
            else []) := by
  intro rest
  induction rest with
  | nil => intro prev; rfl
  | cons cur rest ih =>
    intro prev
    rw [spacingScan, List.zip_cons_cons, List.flatMap_cons, ih cur]

/-- C4: the spacing detector emits issues exactly for consecutive pairs (in
input order, first run skipped) whose Euclidean spacing, the distance from
the predecessor's right edge to the current run's origin, is strictly below
0.1 or strictly above 20; each issue is medium severity and carries the
computed spacing and the current run's position. -/
theorem spacingDetector_adjacent_pairs (ms : List Metric) (prev cur : Metric) :
    analyzeSpacingConsistency ms
      = (ms.zip ms.tail).flatMap (fun pc =>
          if isSpacingAbnormal (calculateSpacingSq pc.1 pc.2) then [spacingIssue pc.1 pc.2]
          else [])
    ∧ (isSpacingAbnormal (calculateSpacingSq prev cur) = true ↔
        (Real.sqrt (calculateSpacingSq prev cur : ℝ) < 0.1
          ∨ 20 < Real.sqrt (calculateSpacingSq prev cur : ℝ)))
    ∧ (spacingIssue prev cur).position = some cur.position
    ∧ (spacingIssue prev cur).severity = .medium
    ∧ (spacingIssue prev cur).spacingSqDetail = some (calculateSpacingSq prev cur) := by
  have h1 : (calculateSpacingSq prev cur : ℝ) < 0.1 ^ 2 ↔
      Real.sqrt (calculateSpacingSq prev cur : ℝ) < 0.1 :=
    (Real.sqrt_lt' (by norm_num)).symm
  have h2 : (20:ℝ) ^ 2 < (calculateSpacingSq prev cur : ℝ) ↔
      (20:ℝ) < Real.sqrt (calculateSpacingSq prev cur : ℝ) :=
    (Real.lt_sqrt (by norm_num)).symm
  refine ⟨?_, ?_, rfl, rfl, rfl⟩
  · cases ms with
    | nil => rfl
    | cons m rest => exact spacingScan_eq_zip rest m
  · have hcast : isSpacingAbnormal (calculateSpacingSq prev cur) = true ↔
        ((calculateSpacingSq prev cur : ℝ) < 0.1 ^ 2
          ∨ (20:ℝ) ^ 2 < (calculateSpacingSq prev cur : ℝ)) := by
      have e1 : (((0.1:ℚ) ^ 2 : ℚ) : ℝ) = (0.1:ℝ) ^ 2 := by
        push_cast
        norm_num
      have e2 : (((20:ℚ) ^ 2 : ℚ) : ℝ) = (20:ℝ) ^ 2 := by
        push_cast
        norm_num
      rw [isSpacingAbnormal]
      simp only [Bool.or_eq_true, decide_eq_true_eq]
      constructor
      · rintro (h | h)
        · left
          rw [← e1]
          exact_mod_cast h
        · right
          rw [← e2]
          exact_mod_cast h
      · rintro (h | h)
        · left
          rw [← e1] at h
          exact_mod_cast h
        · right
          rw [← e2] at h
          exact_mod_cast h
    rw [hcast]
    exact or_congr h1 h2

/-- One `textContent.items` entry from the upstream parser: the string, the
six transform entries, the font name and the measured box. -/
structure TextItem where
  str : String
  t0 : ℚ
  t1 : ℚ
  t2 : ℚ
  t3 : ℚ
  t4 : ℚ
  t5 : ℚ
  fontName : String
  width : ℚ
  height : ℚ
deriving DecidableEq, Repr

/-- The metric pushed for one item: `fontSize` is `transform[0]` and the
position is `(transform[4], transform[5])`, copied without change. -/
def itemMetric (it : TextItem) : Metric :=
  { text := it.str
    fontSize := it.t0
    fontFamily := it.fontName
    position := { x := it.t4, y := it.t5 }
    width := it.width
    height := it.height }

/-- `extractFontMetrics`: loop over pages, then over each page's text items,
pushing one metric per item. -/
def extractFontMetrics (pages : List (List TextItem)) : List Metric :=
  pages.flatMap (fun items => items.map itemMetric)

/-- One planned overlay rectangle.  The constant color table and the fixed
0.3 opacity of the source carry no geometric information and are omitted. -/
structure Rect where
  x : ℚ
  y : ℚ
  width : ℚ
  height : ℚ
deriving DecidableEq, Repr

/-- JS `v || d` on a number: 0 is falsy, so zero falls back to the default. -/
def orDefault (v d : ℚ) : ℚ := if v = 0 then d else v

/-- `Math.floor(position.y / pages[0].getHeight())`. -/
def pageIndexOf (pageHeight : ℚ) (p : Position) : ℤ := ⌊p.y / pageHeight⌋

/-- The rectangle drawn for one run: `x` unchanged, `y` set to
`page.getHeight() - position.y`, box `width || 10` by `height || 10`. -/
def metricRect (pageHeight : ℚ) (m : Metric) : Rect :=
  { x := m.position.x
    y := pageHeight - m.position.y
    width := orDefault m.width 10
    height := orDefault m.height 10 }

/-- The 10 by 10 rectangle drawn at one spacing issue's stored position. -/
def spacingRect (pageHeight : ℚ) (p : Position) : Rect :=
  { x := p.x, y := pageHeight - p.y, width := 10, height := 10 }

/-- The run-rectangle loop shared by `generateHighlightedPDF` (family and
size issues) and `generateFontTypePDF`: draw the run's rectangle when
`pageIndex >= 0 && pageIndex < pages.length`, silently skip it otherwise. -/
def rectsForMetrics (pageHeight : ℚ) (numPages : ℕ) : List Metric → List Rect
  | [] => []
  | m :: rest =>
    (if 0 ≤ pageIndexOf pageHeight m.position
          ∧ pageIndexOf pageHeight m.position < (numPages : ℤ)
     then [metricRect pageHeight m] else [])
      ++ rectsForMetrics pageHeight numPages rest

/-- The spacing-issue rectangle loop of `generateHighlightedPDF`: issues
without a position draw nothing; positions with an out-of-range page index
are silently skipped. -/
def rectsForSpacingIssues (pageHeight : ℚ) (numPages : ℕ) : List Issue → List Rect
  | [] => []
  | i :: rest =>
    (match i.position with
     | some p =>
       if 0 ≤ pageIndexOf pageHeight p ∧ pageIndexOf pageHeight p < (numPages : ℤ)
       then [spacingRect pageHeight p] else []
     | none => [])
      ++ rectsForSpacingIssues pageHeight numPages rest

/-- The run re-selection for one font-family issue: runs whose family is in
the issue's `detectedFonts` and whose context equals the issue's context. -/
def affectedByFamilyIssue (ms : List Metric) (i : Issue) : List Metric :=
  ms.filter (fun m => i.detectedFonts.contains m.fontFamily
    && decide (some (determineContext m) = i.context))

/-- The run re-selection for one font-size issue: runs in its context. -/
def affectedBySizeIssue (ms : List Metric) (i : Issue) : List Metric :=
  ms.filter (fun m => decide (some (determineContext m) = i.context))

/-- The run and issue rectangles of `generateHighlightedPDF`, in draw order
(the fixed page-0 legend furniture is not modelled). -/
def highlightPlanRects (pageHeight : ℚ) (numPages : ℕ) (ms : List Metric)
    (inc : Inconsistencies) : List Rect :=
  inc.fontFamily.issues.flatMap
      (fun i => rectsForMetrics pageHeight numPages (affectedByFamilyIssue ms i))
    ++ inc.fontSize.flatMap
      (fun i => rectsForMetrics pageHeight numPages (affectedBySizeIssue ms i))
    ++ rectsForSpacingIssues pageHeight numPages inc.spacing

/-- The run rectangles of `generateFontTypePDF`. -/
def fontTypePlanRects (pageHeight : ℚ) (numPages : ℕ) (ms : List Metric) : List Rect :=
  rectsForMetrics pageHeight numPages ms

/-- `rectsForMetrics` distributes over append. -/
lemma rectsForMetrics_append (pageHeight : ℚ) (numPages : ℕ) :
    ∀ (a b : List Metric),
      rectsForMetrics pageHeight numPages (a ++ b)
        = rectsForMetrics pageHeight numPages a ++ rectsForMetrics pageHeight numPages b := by
  intro a
  induction a with
  | nil => intro b; rfl
  | cons m rest ih =>
    intro b
    simp only [List.cons_append, rectsForMetrics, List.append_eq, ih, List.append_assoc]

/-- `rectsForSpacingIssues` distributes over append. -/
lemma rectsForSpacingIssues_append (pageHeight : ℚ) (numPages : ℕ) :
    ∀ (a b : List Issue),
      rectsForSpacingIssues pageHeight numPages (a ++ b)
        = rectsForSpacingIssues pageHeight numPages a
          ++ rectsForSpacingIssues pageHeight numPages b := by
  intro a
  induction a with
  | nil => intro b; rfl
  | cons i rest ih =>
    intro b
    simp only [List.cons_append, rectsForSpacingIssues, List.append_eq, ih, List.append_assoc]

/-- A parser item whose transform places it at `(5, 30)` with font size 12. -/
def exItem : TextItem :=
  { str := "Test", t0 := 12, t1 := 0, t2 := 0, t3 := 12, t4 := 5, t5 := 30,
    fontName := "Arial", width := 40, height := 10 }

/-- C8 counterexample: extraction keeps the parser's `y` (30), but the
rectangle placed for that run on a height-100 page sits at
`y = 100 - 30 = 70`, not at 30 — the overlay generators do flip the y axis
relative to the parser's direction. -/
theorem y_axis_flip_counterexample :
    (extractFontMetrics [[exItem]]).map (fun m => m.position.y) = [30]
    ∧ fontTypePlanRects 100 1 (extractFontMetrics [[exItem]])
        = [{ x := 5, y := 70, width := 40, height := 10 }]
    ∧ (70 : ℚ) ≠ 30 := by
  refine ⟨rfl, ?_, by norm_num⟩
  have hidx : pageIndexOf 100 { x := 5, y := 30 } = 0 := by
    unfold pageIndexOf
    norm_num
  simp only [fontTypePlanRects, extractFontMetrics, exItem, itemMetric, List.flatMap_cons,
    List.flatMap_nil, List.map_cons, List.map_nil, List.append_nil, rectsForMetrics]
  rw [hidx]
  norm_num [metricRect, orDefault]

/-- C8 amended: `extractFontMetrics` copies `transform[5]` into `position.y`
without any axis change, while both overlay generators place each rectangle
at `y = pageHeight - position.y`, flipping the axis relative to the
parser's coordinate direction. -/
theorem y_axis_amended (pages : List (List TextItem)) (pageHeight : ℚ)
    (m : Metric) (p : Position) :
    (extractFontMetrics pages).map (fun mm => mm.position.y)
        = pages.flatMap (fun items => items.map (fun it => it.t5))
    ∧ (metricRect pageHeight m).y = pageHeight - m.position.y
    ∧ (spacingRect pageHeight p).y = pageHeight - p.y := by
  refine ⟨?_, rfl, rfl⟩
  unfold extractFontMetrics
  induction pages with
  | nil => rfl
  | cons pg rest ih =>
    simp only [List.flatMap_cons, List.map_append, ih, List.map_map]
    rfl

/-- C10: a run, or a spacing issue's stored position, whose computed page
index `floor(y / pageHeight)` is negative or at least the page count
contributes no rectangle in either overlay generator: it is dropped, the
surrounding plan unchanged. -/
theorem outOfRange_position_skipped (pageHeight : ℚ) (numPages : ℕ) (m : Metric)
    (ms₁ ms₂ : List Metric) (i : Issue) (is₁ is₂ : List Issue)
    (hout : pageIndexOf pageHeight m.position < 0
      ∨ (numPages : ℤ) ≤ pageIndexOf pageHeight m.position) :
    rectsForMetrics pageHeight numPages (ms₁ ++ m :: ms₂)
        = rectsForMetrics pageHeight numPages (ms₁ ++ ms₂)
    ∧ fontTypePlanRects pageHeight numPages (ms₁ ++ m :: ms₂)
        = fontTypePlanRects pageHeight numPages (ms₁ ++ ms₂)
    ∧ (i.position = some m.position →
        rectsForSpacingIssues pageHeight numPages (is₁ ++ i :: is₂)
          = rectsForSpacingIssues pageHeight numPages (is₁ ++ is₂)) := by
  have hcond : ¬ (0 ≤ pageIndexOf pageHeight m.position
      ∧ pageIndexOf pageHeight m.position < (numPages : ℤ)) := by
    rcases hout with h | h <;> omega
  have hm : rectsForMetrics pageHeight numPages (ms₁ ++ m :: ms₂)
      = rectsForMetrics pageHeight numPages (ms₁ ++ ms₂) := by
    rw [rectsForMetrics_append, rectsForMetrics_append]
    simp only [rectsForMetrics, if_neg hcond, List.nil_append]
  refine ⟨hm, hm, ?_⟩
  intro hi
  rw [rectsForSpacingIssues_append, rectsForSpacingIssues_append]
  simp only [rectsForSpacingIssues, hi, if_neg hcond, List.nil_append]

/-- A run whose `y` places it past the last page of a one-page document. -/
def outMetric : Metric :=
  { text := "X", fontSize := 12, fontFamily := "Arial",
    position := { x := 0, y := 250 }, width := 10, height := 10 }

/-- Witness for C10: with page height 100 and one page, a run at `y = 250`
(page index 2) produces no rectangle. -/
theorem outOfRange_position_skipped_witness :
    rectsForMetrics 100 1 [outMetric] = rectsForMetrics 100 1 [] :=
  (outOfRange_position_skipped 100 1 outMetric [] []
    (spacingIssue outMetric outMetric) [] []
    (Or.inr (by norm_num [pageIndexOf, outMetric]))).1

/-- A JS `Error` value: its message, and the message of an attached cause
when the constructing code attached one (`new Error(msg)` attaches none). -/
structure JsError where
  message : String
  cause : Option String
deriving DecidableEq, Repr

/-- The try/catch of `generateHighlightedPDF`: a rejection of the external
writer (`PDFDocument.load` / `save`) is logged and replaced by
`new Error('Failed to generate highlighted PDF')`, with no cause attached. -/
def generateHighlightedPdfResult {α : Type} (writerResult : Except JsError α) :
    Except JsError α :=
  match writerResult with
  | .ok v => .ok v
  | .error _ => .error { message := "Failed to generate highlighted PDF", cause := none }

/-- The try/catch of `generateFontTypePDF`. -/
def generateFontTypePdfResult {α : Type} (writerResult : Except JsError α) :
    Except JsError α :=
  match writerResult with
  | .ok v => .ok v
  | .error _ => .error { message := "Failed to generate font type PDF", cause := none }

/-- The try/catch of `analyzePDF`: any error from the pipeline below it is
logged and replaced by `new Error('Failed to analyze PDF document')`. -/
def analyzePdfOutcome {α : Type} (inner : Except JsError α) : Except JsError α :=
  match inner with
  | .ok v => .ok v
  | .error _ => .error { message := "Failed to analyze PDF document", cause := none }

/-- Modelled from the spec: a propagated failure preserves the originating
cause when the rethrown error carries the original message, either as its
own message (a straight rethrow) or in an attached cause. -/
def preservesCause (original propagated : JsError) : Prop :=
  propagated.message = original.message ∨ propagated.cause = some original.message

/-- C7 counterexample: when the writer rejects with "malformed geometry",
`generateHighlightedPDF` rethrows a fresh fixed-message error that carries
neither that message nor any cause — the originating cause is dropped, not
preserved. -/
theorem overlay_failure_cause_dropped :
    generateHighlightedPdfResult (α := Unit)
        (.error { message := "malformed geometry", cause := none })
      = .error { message := "Failed to generate highlighted PDF", cause := none }
    ∧ ¬ preservesCause { message := "malformed geometry", cause := none }
        { message := "Failed to generate highlighted PDF", cause := none } := by
  refine ⟨rfl, ?_⟩
  rintro (h | h) <;> simp [preservesCause] at h

/-- C7 amended: a writer failure is propagated, never swallowed into a
success, but as a fresh fixed-message error with no cause attached (and
`analyzePDF` wraps it once more into its own fixed message). -/
theorem overlay_failure_propagated_wrapped (e : JsError) :
    generateHighlightedPdfResult (α := Unit) (.error e)
        = .error { message := "Failed to generate highlighted PDF", cause := none }
    ∧ generateFontTypePdfResult (α := Unit) (.error e)
        = .error { message := "Failed to generate font type PDF", cause := none }
    ∧ analyzePdfOutcome (generateHighlightedPdfResult (α := Unit) (.error e))
        = .error { message := "Failed to analyze PDF document", cause := none }
    ∧ ∀ v : Unit, generateHighlightedPdfResult (α := Unit) (.error e) ≠ .ok v := by
  refine ⟨rfl, rfl, rfl, ?_⟩
  intro v h
  simp [generateHighlightedPdfResult] at h
